import Mathlib

/-!
Verification model of the mlua_magic procedural macros
(src/lib.rs, src/compile.rs, src/load.rs).

The macros inspect pieces of Rust syntax (a struct, an enum, an impl block,
or an argument list) and emit bridging code that registers fields, variants
and methods with mlua's UserData API.  We embed:

* the syntax the macros inspect (only the distinctions the code reads);
* each macro's expansion logic as a total Lean function;
* the emitted registration calls as descriptors that record the mlua API
  used, the Lua-visible name, and the shape of the generated closure;
* the behaviour of the emitted closures where a claim is about it
  (field setters, the generated FromLua implementation).

A proc macro invocation can end three ways: it emits tokens, it emits the
compile error carried by a syn parse failure (the expansion of the
parse_macro_input! path), or it aborts expansion by panicking
(expect / unwrap / an explicit panic call in the source).  `MacroOut` records
which of the three happened.
-/

/-- A Rust type as it occurs in the signatures the macros walk.  The code
only ever distinguishes `syn::Type::Path` from every other `syn::Type`
(in load.rs); types appearing in field/argument position are carried
through verbatim into the generated tokens. -/
inductive RsType
| path (segs : List String)
| reference (isMut : Bool) (inner : RsType)
| otherTy (txt : String)
deriving DecidableEq

/-- `stringify!` of a type path, as used for the `to` field of the generated
conversion errors (token spacing abstracted away). -/
def RsType.stringifyTy : RsType → String
| .path segs => String.intercalate "::" segs
| .reference _ inner => "&" ++ inner.stringifyTy
| .otherTy txt => txt

/-- A Rust pattern, as matched by the implementation attribute: the code
only distinguishes `syn::Pat::Ident` from every other pattern. -/
inductive RsPat
| identPat (nm : String)
| otherPat (txt : String)
deriving DecidableEq

/-- A typed (non-receiver) function argument: `syn::PatType`. -/
structure TypedArg where
  pat : RsPat
  ty : RsType
deriving DecidableEq

/-- A `self` receiver: `syn::Receiver`; `isMut` models `mutability.is_some()`. -/
structure RsReceiver where
  isMut : Bool
deriving DecidableEq

/-- One input of a function signature: `syn::FnArg`. -/
inductive RsFnArg
| receiverArg (r : RsReceiver)
| typedArg (a : TypedArg)
deriving DecidableEq

/-- A function signature: `syn::Signature`, keeping the fields the macro
reads (ident, asyncness, inputs). -/
structure RsSig where
  ident : String
  isAsync : Bool
  inputs : List RsFnArg
deriving DecidableEq

/-- `syn::Signature::receiver`: the receiver, when the first input is one. -/
def RsSig.receiver (s : RsSig) : Option RsReceiver :=
  match s.inputs with
  | .receiverArg r :: _ => some r
  | _ => none

/-- An item of an impl block: `syn::ImplItem`; only `ImplItem::Fn` is used. -/
inductive RsImplItem
| fnItem (sig : RsSig)
| otherImplItem (txt : String)
deriving DecidableEq

/-- An impl block: `syn::ItemImpl` (self type and items). -/
structure ItemImpl where
  selfTy : RsType
  items : List RsImplItem
deriving DecidableEq

/-- A struct field: `syn::Field`.  The ident is optional (tuple structs have
unnamed fields); the visibility is carried but never inspected by the code. -/
structure RsField where
  isPub : Bool
  ident : Option String
  ty : RsType
deriving DecidableEq

/-- A struct item: `syn::ItemStruct`.  `fields` models iterating
`&ast.fields`, which yields every field in declaration order (and nothing
for a unit struct). -/
structure ItemStruct where
  ident : String
  fields : List RsField
deriving DecidableEq

/-- The fields of one enum variant: `syn::Fields`.  Named fields always
carry an ident after a successful parse, so they are modelled as pairs. -/
inductive RsVariantFields
| unitFields
| unnamedFields (tys : List RsType)
| namedFields (fs : List (String × RsType))
deriving DecidableEq

/-- One enum variant: `syn::Variant`. -/
structure RsVariant where
  ident : String
  fields : RsVariantFields
deriving DecidableEq

/-- An enum item: `syn::ItemEnum`. -/
structure ItemEnum where
  ident : String
  variants : List RsVariant
deriving DecidableEq

/-- Result of `syn` parsing the macro input, i.e. what `parse_macro_input!`
(or `syn::parse`) hands to the rest of the macro body. -/
inductive SynResult (α : Type)
| parsed (a : α)
| failed (msg : String)
deriving DecidableEq

/-- Kind of a statement emitted into `_to_mlua_fields`. -/
inductive FieldRegKind
| getKind
| setKind
deriving DecidableEq

/-- A registration emitted into `_to_mlua_fields`:
`fields.add_field_method_get(name, closure)` or
`fields.add_field_method_set(name, closure)`.  `srcField` is the struct
field read or assigned by the closure body; `valTy` is the `val : #field_ty`
annotation of a setter closure (`none` for a getter, which has no value
parameter). -/
structure FieldReg where
  kind : FieldRegKind
  luaName : String
  srcField : String
  valTy : Option RsType
deriving DecidableEq

/-- The mlua registration API chosen for a function of an impl block. -/
inductive RegApi
| addAsyncMethodMut
| addMethodMut
| addAsyncMethod
| addMethod
| addAsyncFunction
| addFunction
deriving DecidableEq

/-- How the emitted closure reaches the original Rust function. -/
inductive CallRecv
| thisRecv
| staticRecv (selfTy : RsType)
deriving DecidableEq

/-- The body of an emitted method/function closure: either
`return Ok(recv.f(args));` or, inside an async block,
`return Ok(recv.f(args).await);`. -/
inductive ClosureBody
| callOk (recv : CallRecv) (fnName : String) (argNames : List String)
| awaitCallOk (recv : CallRecv) (fnName : String) (argNames : List String)
deriving DecidableEq

/-- A registration emitted into `_to_mlua_methods`. -/
structure MethodReg where
  api : RegApi
  luaName : String
  argNames : List String
  argTys : List RsType
  body : ClosureBody
deriving DecidableEq

/-- The constructor closure emitted for one enum variant. -/
inductive VariantCtor
| unitCtor
| tupleCtor (argTys : List RsType)
| tableCtor (fs : List (String × RsType))
deriving DecidableEq

/-- A registration emitted into `_to_mlua_variants`: always
`methods.add_function(luaName, closure)`, with the closure constructing
`enumName::variantName` as described by `ctor`. -/
structure VariantReg where
  luaName : String
  enumName : String
  variantName : String
  ctor : VariantCtor
deriving DecidableEq

/-- A call emitted into the generated `mlua::UserData` impl. -/
inductive HelperCall
| callFields
| callMethods
| callVariants
deriving DecidableEq

/-- A top-level item of a macro's output token stream. -/
inductive OutItem
| origStruct (s : ItemStruct)
| origEnum (e : ItemEnum)
| origImpl (i : ItemImpl)
| helperFieldsImpl (tyName : String) (regs : List FieldReg)
| helperVariantsImpl (tyName : String) (regs : List VariantReg)
| helperMethodsImpl (selfTy : RsType) (regs : List MethodReg)
| userDataImpl (tyPath : RsType) (addFieldsBody : List HelperCall)
    (addMethodsBody : List HelperCall)
| fromLuaImpl (tyPath : RsType)
| loadBlock (luaVar : String) (tyPaths : List RsType)
deriving DecidableEq

/-- Outcome of one proc-macro invocation. -/
inductive MacroOut
| emitted (items : List OutItem)
| parseErrorEmitted (msg : String)
| panicked (msg : String)
deriving DecidableEq

/-- Whether the invocation ended by emitting/propagating a parse error. -/
def MacroOut.isParseError : MacroOut → Bool
| .parseErrorEmitted _ => true
| _ => false

/-! ### The structure attribute (src/lib.rs, `fn structure`) -/

/-- The loop of `fn structure`: for each field, read its name
(`expect("Field must have a name")`, which panics on an unnamed field) and
push a getter and a setter registration under that name. -/
def structFieldRegs : List RsField → Except String (List FieldReg)
| [] => .ok []
| f :: rest =>
  match f.ident with
  | none => .error "Field must have a name"
  | some nm => do
    let tail ← structFieldRegs rest
    .ok (FieldReg.mk .getKind nm nm none
      :: FieldReg.mk .setKind nm nm (some f.ty) :: tail)

/-- Expansion of `#[structure]`: parse an `ItemStruct`, build the field
registrations, and output the original item followed by the
`_to_mlua_fields` helper impl. -/
def structureExpand : SynResult ItemStruct → MacroOut
| .failed msg => .parseErrorEmitted msg
| .parsed ast =>
  match structFieldRegs ast.fields with
  | .error msg => .panicked msg
  | .ok regs => .emitted [.origStruct ast, .helperFieldsImpl ast.ident regs]

/-! ### The enumeration attribute (src/lib.rs, `fn enumeration`) -/

/-- The per-variant match of `fn enumeration`: a unit variant becomes a
zero-argument constructor, an unnamed-fields variant a tuple constructor
over the field types, a named-fields variant a constructor taking one Lua
table and reading each field from it by name.  All are registered with
`methods.add_function` under the variant's name. -/
def variantRegOf (enumName : String) (v : RsVariant) : VariantReg :=
  match v.fields with
  | .unitFields => ⟨v.ident, enumName, v.ident, .unitCtor⟩
  | .unnamedFields tys => ⟨v.ident, enumName, v.ident, .tupleCtor tys⟩
  | .namedFields fs => ⟨v.ident, enumName, v.ident, .tableCtor fs⟩

/-- Expansion of `#[enumeration]`: parse an `ItemEnum`, build one
registration per variant, and output the original item followed by the
`_to_mlua_variants` helper impl. -/
def enumerationExpand : SynResult ItemEnum → MacroOut
| .failed msg => .parseErrorEmitted msg
| .parsed ast =>
  .emitted [.origEnum ast,
    .helperVariantsImpl ast.ident (ast.variants.map (variantRegOf ast.ident))]

/-! ### The implementation attribute (src/lib.rs, `fn implementation`) -/

/-- The `filter_map`/`unzip` over `sig.inputs`: keep a typed argument only
when its pattern is a plain identifier, yielding the argument-name list and
the argument-type list in order. -/
def implArgSplit (inputs : List RsFnArg) : List String × List RsType :=
  let pairs := inputs.filterMap (fun a =>
    match a with
    | .typedArg t =>
      match t.pat with
      | .identPat nm => some (nm, t.ty)
      | .otherPat _ => none
    | .receiverArg _ => none)
  (pairs.map Prod.fst, pairs.map Prod.snd)

/-- The dispatch of `fn implementation` for one function item: choose the
mlua registration API from the receiver and asyncness, and emit a closure
that calls the original function (through `this` for methods, through
`#name::` for receiver-less functions), awaiting it when async, and wraps
the result in `Ok`. -/
def methodRegOf (selfTy : RsType) (sig : RsSig) : MethodReg :=
  let argNames := (implArgSplit sig.inputs).1
  let argTys := (implArgSplit sig.inputs).2
  match sig.receiver with
  | some r =>
    if r.isMut then
      if sig.isAsync then
        ⟨.addAsyncMethodMut, sig.ident, argNames, argTys,
          .awaitCallOk .thisRecv sig.ident argNames⟩
      else
        ⟨.addMethodMut, sig.ident, argNames, argTys,
          .callOk .thisRecv sig.ident argNames⟩
    else
      if sig.isAsync then
        ⟨.addAsyncMethod, sig.ident, argNames, argTys,
          .awaitCallOk .thisRecv sig.ident argNames⟩
      else
        ⟨.addMethod, sig.ident, argNames, argTys,
          .callOk .thisRecv sig.ident argNames⟩
  | none =>
    if sig.isAsync then
      ⟨.addAsyncFunction, sig.ident, argNames, argTys,
        .awaitCallOk (.staticRecv selfTy) sig.ident argNames⟩
    else
      ⟨.addFunction, sig.ident, argNames, argTys,
        .callOk (.staticRecv selfTy) sig.ident argNames⟩

/-- The loop of `fn implementation`: every `ImplItem::Fn` contributes one
registration; every other impl item is skipped. -/
def implMethodRegs (selfTy : RsType) (items : List RsImplItem) : List MethodReg :=
  items.filterMap (fun it =>
    match it with
    | .fnItem sig => some (methodRegOf selfTy sig)
    | .otherImplItem _ => none)

/-- Expansion of `#[implementation]`: parse an `ItemImpl`, build the method
registrations, and output the original item followed by the
`_to_mlua_methods` helper impl. -/
def implementationExpand : SynResult ItemImpl → MacroOut
| .failed msg => .parseErrorEmitted msg
| .parsed ast =>
  .emitted [.origImpl ast,
    .helperMethodsImpl ast.selfTy (implMethodRegs ast.selfTy ast.items)]

/-- The signatures of the function items of an impl block, in order. -/
def implFnSigs (items : List RsImplItem) : List RsSig :=
  items.filterMap (fun it =>
    match it with
    | .fnItem sig => some sig
    | .otherImplItem _ => none)

/-! ### The compile macro (src/lib.rs `fn compile`, src/compile.rs) -/

/-- `CompileArgs` (src/compile.rs): every darling field defaults, so each
is optional after parsing. -/
structure CompileArgs where
  type_path : Option RsType
  fields : Option Bool
  methods : Option Bool
  variants : Option Bool
deriving DecidableEq

/-- Expansion of `compile!`.  `parse_compile_args(input).unwrap()` turns a
parse failure into a panic; `.expect("Type is required.")` panics when
`type_path` is absent.  Otherwise the output is the `mlua::UserData` impl
(whose `add_fields` body calls `Self::_to_mlua_fields` exactly when
`fields = true`, and whose `add_methods` body calls
`Self::_to_mlua_methods` exactly when `methods = true` followed by
`Self::_to_mlua_variants` exactly when `variants = true`) and the
`mlua::FromLua` impl. -/
def compileExpand : SynResult CompileArgs → MacroOut
| .failed msg => .panicked msg
| .parsed args =>
  match args.type_path with
  | none => .panicked "Type is required."
  | some tp =>
    let fieldsBody := if args.fields.getD false then [HelperCall.callFields] else []
    let methodsBody :=
      (if args.methods.getD false then [HelperCall.callMethods] else [])
        ++ (if args.variants.getD false then [HelperCall.callVariants] else [])
    .emitted [.userDataImpl tp fieldsBody methodsBody, .fromLuaImpl tp]

/-! ### The load macro (src/load.rs, src/lib.rs `fn load`) -/

/-- A chunk of the `load!` input stream, pre-categorised by what it parses
as: an identifier (which also parses as a one-segment type path), a comma,
or a non-identifier chunk parsing as the given `syn::Type`. -/
inductive LoadTok
| identTok (s : String)
| commaTok
| typeTok (t : RsType)
deriving DecidableEq

/-- Failure of the custom `LoadInput::parse`: a syn parse error propagated
with `?`, or the explicit panic on a type that is not a type path. -/
inductive LoadFail
| parseFail (msg : String)
| panicFail (msg : String)
deriving DecidableEq

/-- The loop of `LoadInput::parse`: while input remains, require a comma,
allow a trailing comma, then parse a `Type`; push it when it is a
`Type::Path` and panic with "Expected a type path" otherwise. -/
def parseLoadRest : List LoadTok → Except LoadFail (List RsType)
| [] => .ok []
| .commaTok :: rest =>
  match rest with
  | [] => .ok []
  | .identTok s :: rest2 => do
    let tail ← parseLoadRest rest2
    .ok (RsType.path [s] :: tail)
  | .typeTok t :: rest2 =>
    match t with
    | .path segs => do
      let tail ← parseLoadRest rest2
      .ok (RsType.path segs :: tail)
    | _ => .error (.panicFail "Expected a type path")
  | .commaTok :: _ => .error (.parseFail "expected type")
| _ => .error (.parseFail "expected comma")

/-- Expansion of `load!`: parse the leading Lua identifier and the list of
type paths (through `parse_macro_input!`, which emits parse errors as
compile errors and lets the explicit panic escape), then emit the block
that registers each type as a global proxy. -/
def loadExpand : List LoadTok → MacroOut
| .identTok luaVar :: rest =>
  match parseLoadRest rest with
  | .error (.parseFail msg) => .parseErrorEmitted msg
  | .error (.panicFail msg) => .panicked msg
  | .ok tps => .emitted [.loadBlock luaVar tps]
| _ => .parseErrorEmitted "expected identifier"

/-! ### Behaviour of emitted closures -/

/-- Values of the embedded scripting runtime, to the granularity the
emitted code distinguishes: userdata (with the Rust type it holds and an
abstract payload) versus everything else. -/
inductive LuaValue
| nilV
| booleanV (b : Bool)
| integerV (n : Int)
| stringV (s : String)
| tableV (id : Nat)
| userDataV (heldTy : String) (payload : Nat)
deriving DecidableEq

/-- `mlua::Value::type_name`. -/
def LuaValue.typeName : LuaValue → String
| .nilV => "nil"
| .booleanV _ => "boolean"
| .integerV _ => "integer"
| .stringV _ => "string"
| .tableV _ => "table"
| .userDataV _ _ => "userdata"

/-- The mlua errors the emitted conversion code can mention. -/
inductive MluaError
| fromLuaConversionError (fromName : String) (toName : String)
    (message : Option String)
| runtimeError (msg : String)
deriving DecidableEq

/-- `AnyUserData::borrow::<Self>()`, modelled on type identity: it yields
the held value exactly when the userdata holds `Self` (concurrent-borrow
failures are outside this model). -/
def borrowSelf (selfName heldTy : String) (payload : Nat) :
    Except Unit (String × Nat) :=
  if heldTy = selfName then .ok (heldTy, payload) else .error ()

/-- The `from_lua` body emitted by `compile!` for the type whose
stringified path is `selfName`: borrow and clone on a userdata of the right
type, and a `FromLuaConversionError` in every other case. -/
def generatedFromLua (selfName : String) (value : LuaValue) :
    Except MluaError (String × Nat) :=
  match value with
  | .userDataV heldTy payload =>
    match borrowSelf selfName heldTy payload with
    | .ok b => .ok b
    | .error _ =>
      .error (.fromLuaConversionError "UserData" selfName
        (some "userdata is not this exact Rust type"))
  | v =>
    .error (.fromLuaConversionError v.typeName selfName
      (some "expected userdata created by mlua_magic_macros"))

/-- A struct instance, as the emitted field closures see it: a total map
from field names to current values. -/
def StructObj : Type := String → LuaValue

/-- The body of an emitted getter closure:
`return Ok(this.#field_name.clone());`. -/
def runFieldGet (srcField : String) (this : StructObj) :
    Except MluaError LuaValue :=
  .ok (this srcField)

/-- The body of an emitted setter closure:
`this.#field_name = val; return Ok(());` — the updated instance paired with
the returned result. -/
def runFieldSet (srcField : String) (this : StructObj) (val : LuaValue) :
    StructObj × Except MluaError Unit :=
  (fun g => if g = srcField then val else this g, .ok ())

/-! ### Concrete inputs, mirroring tests/example.rs -/

/-- The `Player` struct of tests/example.rs. -/
def playerStructModel : ItemStruct :=
  ⟨"Player",
    [⟨false, some "name", .path ["String"]⟩,
     ⟨false, some "hp", .path ["i32"]⟩,
     ⟨false, some "status", .path ["PlayerStatus"]⟩]⟩

/-- The `PlayerStatus` enum of tests/example.rs, plus a named-fields
variant exercising the table constructor. -/
def playerStatusEnumModel : ItemEnum :=
  ⟨"PlayerStatus",
    [⟨"Idle", .unitFields⟩,
     ⟨"Walking", .unitFields⟩,
     ⟨"Attacking", .unnamedFields [.path ["i32"]]⟩,
     ⟨"Casting", .namedFields [("spell", .path ["String"]), ("power", .path ["i32"])]⟩]⟩

/-- `fn new(name: String) -> Self` (static constructor). -/
def newSig : RsSig :=
  ⟨"new", false, [.typedArg ⟨.identPat "name", .path ["String"]⟩]⟩

/-- `fn take_damage(&mut self, amount: i32)`. -/
def takeDamageSig : RsSig :=
  ⟨"take_damage", false,
    [.receiverArg ⟨true⟩, .typedArg ⟨.identPat "amount", .path ["i32"]⟩]⟩

/-- `fn is_alive(&self) -> bool`. -/
def isAliveSig : RsSig :=
  ⟨"is_alive", false, [.receiverArg ⟨false⟩]⟩

/-- The `impl Player` block of tests/example.rs. -/
def playerImplModel : ItemImpl :=
  ⟨.path ["Player"], [.fnItem newSig, .fnItem takeDamageSig, .fnItem isAliveSig]⟩

/-- `async fn init_async() -> Self` (static, async). -/
def initAsyncSig : RsSig := ⟨"init_async", true, []⟩

/-- `async fn write_async(&mut self)`. -/
def writeAsyncSig : RsSig := ⟨"write_async", true, [.receiverArg ⟨true⟩]⟩

/-- `async fn read_async(&self) -> i32`. -/
def readAsyncSig : RsSig := ⟨"read_async", true, [.receiverArg ⟨false⟩]⟩

/-- The `impl Db` block of tests/example.rs. -/
def dbImplModel : ItemImpl :=
  ⟨.path ["Db"],
    [.fnItem initAsyncSig, .fnItem writeAsyncSig, .fnItem readAsyncSig]⟩

/-- `compile!(type_path = Player, fields = true, methods = true)`. -/
def playerCompileArgs : CompileArgs :=
  ⟨some (.path ["Player"]), some true, some true, none⟩

/-- The Attacking variant of the PlayerStatus enum. -/
def attackingVariantModel : RsVariant :=
  ⟨"Attacking", .unnamedFields [.path ["i32"]]⟩

/-- A tuple struct (its field is unnamed), for the failure-mode witness. -/
def tupleStructModel : ItemStruct :=
  ⟨"Pair", [⟨false, none, .path ["i32"]⟩]⟩

/-- The hp field of the Player struct. -/
def hpFieldModel : RsField := ⟨false, some "hp", .path ["i32"]⟩

/-- A signature mixing an identifier-pattern argument with a wildcard
argument: `fn mixed(&self, a: i32, _: u8)`. -/
def mixedArgsSig : RsSig :=
  ⟨"mixed", false,
    [.receiverArg ⟨false⟩,
     .typedArg ⟨.identPat "a", .path ["i32"]⟩,
     .typedArg ⟨.otherPat "_", .path ["u8"]⟩]⟩

/-- Spec-side description (for the argument-filtering claim): the typed,
non-receiver arguments of a signature, in order. -/
def typedArgsOf (inputs : List RsFnArg) : List TypedArg :=
  inputs.filterMap (fun a =>
    match a with
    | .typedArg t => some t
    | .receiverArg _ => none)

/-- Spec-side description (for the argument-filtering claim): whether an
argument's pattern is a plain identifier. -/
def hasIdentPat (t : TypedArg) : Bool :=
  match t.pat with
  | .identPat _ => true
  | .otherPat _ => false

/-! ### Helper lemmas -/

/-- The Lua name of a method registration is always the Rust function name,
whatever the receiver/async combination. -/
theorem methodRegOf_luaName (selfTy : RsType) (sig : RsSig) :
    (methodRegOf selfTy sig).luaName = sig.ident := by
  cases h : sig.receiver with
  | none =>
    by_cases ha : sig.isAsync <;> simp [methodRegOf, h, ha]
  | some r =>
    by_cases hm : r.isMut <;> by_cases ha : sig.isAsync <;>
      simp [methodRegOf, h, hm, ha]

/-- The argument lists of a method registration are the ones computed by
`implArgSplit`, whatever the receiver/async combination. -/
theorem methodRegOf_args (selfTy : RsType) (sig : RsSig) :
    (methodRegOf selfTy sig).argNames = (implArgSplit sig.inputs).1 ∧
    (methodRegOf selfTy sig).argTys = (implArgSplit sig.inputs).2 := by
  cases h : sig.receiver with
  | none =>
    by_cases ha : sig.isAsync <;> simp [methodRegOf, h, ha]
  | some r =>
    by_cases hm : r.isMut <;> by_cases ha : sig.isAsync <;>
      simp [methodRegOf, h, hm, ha]

/-- The Lua name of a variant registration is always the variant's name. -/
theorem variantRegOf_luaName (en : String) (v : RsVariant) :
    (variantRegOf en v).luaName = v.ident := by
  cases h : v.fields <;> simp [variantRegOf, h]

/-- The method-registration loop is the map of the per-item dispatch over
the function items. -/
theorem implMethodRegs_eq_map (selfTy : RsType) :
    ∀ items : List RsImplItem,
      implMethodRegs selfTy items = (implFnSigs items).map (methodRegOf selfTy) := by
  intro items
  induction items with
  | nil => rfl
  | cons it t ih =>
    cases it with
    | fnItem sig =>
      simp only [implMethodRegs, implFnSigs, List.filterMap_cons, List.map_cons] at *
      rw [ih]
    | otherImplItem s =>
      simp only [implMethodRegs, implFnSigs, List.filterMap_cons] at *
      exact ih

/-- Filtering a list by equality of a string-valued projection returns the
single matching element, when the projections are distinct. -/
theorem filter_nm_single {α : Type} (nm : α → String) :
    ∀ (l : List α) (a : α), (l.map nm).Nodup → a ∈ l →
      l.filter (fun x => nm x == nm a) = [a] := by
  intro l
  induction l with
  | nil => intro a _ ha; exact absurd ha (List.not_mem_nil a)
  | cons b t ih =>
    intro a hnd ha
    rw [List.map_cons, List.nodup_cons] at hnd
    rcases List.mem_cons.mp ha with rfl | h
    · have ht : t.filter (fun x => nm x == nm a) = [] := by
        rw [List.filter_eq_nil_iff]
        intro x hx hbeq
        have hxa : nm x = nm a := by simpa using hbeq
        exact hnd.1 (hxa ▸ List.mem_map_of_mem nm hx)
      rw [List.filter_cons]
      simp [ht]
    · have hne : nm b ≠ nm a := fun he => hnd.1 (he ▸ List.mem_map_of_mem nm h)
      rw [List.filter_cons]
      simp only [beq_iff_eq, hne, if_false, if_neg hne]
      exact ih a hnd.2 h

/-- On an all-named field list, the structure loop succeeds and emits a
getter and a setter per field, in declaration order. -/
theorem structFieldRegs_ok :
    ∀ l : List RsField, (∀ f ∈ l, f.ident.isSome) →
      structFieldRegs l = .ok ((l.map (fun f =>
        [FieldReg.mk .getKind (f.ident.getD "") (f.ident.getD "") none,
         FieldReg.mk .setKind (f.ident.getD "") (f.ident.getD "") (some f.ty)])).flatten) := by
  intro l
  induction l with
  | nil => intro _; rfl
  | cons f t ih =>
    intro h
    have hf := h f (List.mem_cons_self f t)
    rcases Option.isSome_iff_exists.mp hf with ⟨nm, hnm⟩
    have ht := ih (fun g hg => h g (List.mem_cons_of_mem f hg))
    simp [structFieldRegs, hnm, ht, Bind.bind, Except.bind]

/-- If any field is unnamed, the structure loop aborts with the expect
message. -/
theorem structFieldRegs_err :
    ∀ l : List RsField, (∃ f ∈ l, f.ident = none) →
      structFieldRegs l = .error "Field must have a name" := by
  intro l
  induction l with
  | nil => rintro ⟨f, hf, _⟩; exact absurd hf (List.not_mem_nil f)
  | cons g t ih =>
    rintro ⟨f, hf, hnone⟩
    rcases List.mem_cons.mp hf with rfl | hmem
    · simp [structFieldRegs, hnone]
    · cases hg : g.ident with
      | none => simp [structFieldRegs, hg]
      | some nm =>
        have ht := ih ⟨f, hmem, hnone⟩
        simp [structFieldRegs, hg, ht, Bind.bind, Except.bind]

/-- `implArgSplit` keeps exactly the identifier-pattern arguments, in
order: the types are those of the kept arguments, and the kept arguments'
patterns are the recorded names wrapped back into identifier patterns. -/
theorem implArgSplit_spec :
    ∀ inputs : List RsFnArg,
      (implArgSplit inputs).2 = ((typedArgsOf inputs).filter hasIdentPat).map TypedArg.ty ∧
      ((typedArgsOf inputs).filter hasIdentPat).map TypedArg.pat =
        (implArgSplit inputs).1.map RsPat.identPat := by
  intro inputs
  induction inputs with
  | nil => exact ⟨rfl, rfl⟩
  | cons a t ih =>
    cases a with
    | receiverArg r =>
      simpa [implArgSplit, typedArgsOf, List.filterMap_cons] using ih
    | typedArg ta =>
      cases hp : ta.pat with
      | identPat nm =>
        constructor
        · simpa [implArgSplit, typedArgsOf, hasIdentPat, List.filterMap_cons,
            List.filter_cons, hp] using ih.1
        · simpa [implArgSplit, typedArgsOf, hasIdentPat, List.filterMap_cons,
            List.filter_cons, hp] using ih.2
      | otherPat txt =>
        constructor
        · simpa [implArgSplit, typedArgsOf, hasIdentPat, List.filterMap_cons,
            List.filter_cons, hp] using ih.1
        · simpa [implArgSplit, typedArgsOf, hasIdentPat, List.filterMap_cons,
            List.filter_cons, hp] using ih.2

/-! ### Claim theorems -/

/-- Claim C1: for every function item in an impl block annotated with the
implementation attribute, the generated `_to_mlua_methods` helper contains
exactly one registration for it, selected by receiver mutability and
asyncness (a mutable-receiver async fn via add_async_method_mut, a
mutable-receiver sync fn via add_method_mut, an immutable-receiver async fn
via add_async_method, an immutable-receiver sync fn via add_method, a
receiver-less async fn via add_async_function, a receiver-less sync fn via
add_function), and the Lua-visible name equals the Rust function name. -/
theorem implementation_dispatch_table (ast : ItemImpl) (sig : RsSig)
    (hmem : RsImplItem.fnItem sig ∈ ast.items)
    (hnd : ((implFnSigs ast.items).map RsSig.ident).Nodup) :
    ∃ regs r,
      implementationExpand (.parsed ast) =
        .emitted [.origImpl ast, .helperMethodsImpl ast.selfTy regs] ∧
      regs.filter (fun x => x.luaName == sig.ident) = [r] ∧
      r.luaName = sig.ident ∧
      (sig.receiver = some ⟨true⟩ → sig.isAsync = true → r.api = .addAsyncMethodMut) ∧
      (sig.receiver = some ⟨true⟩ → sig.isAsync = false → r.api = .addMethodMut) ∧
      (sig.receiver = some ⟨false⟩ → sig.isAsync = true → r.api = .addAsyncMethod) ∧
      (sig.receiver = some ⟨false⟩ → sig.isAsync = false → r.api = .addMethod) ∧
      (sig.receiver = none → sig.isAsync = true → r.api = .addAsyncFunction) ∧
      (sig.receiver = none → sig.isAsync = false → r.api = .addFunction) := by
  have hsig : sig ∈ implFnSigs ast.items := by
    unfold implFnSigs
    exact List.mem_filterMap.mpr ⟨.fnItem sig, hmem, rfl⟩
  have hfil : (implFnSigs ast.items).filter (fun s => s.ident == sig.ident) = [sig] :=
    filter_nm_single RsSig.ident (implFnSigs ast.items) sig hnd hsig
  refine ⟨implMethodRegs ast.selfTy ast.items, methodRegOf ast.selfTy sig,
    rfl, ?_, methodRegOf_luaName ast.selfTy sig, ?_, ?_, ?_, ?_, ?_, ?_⟩
  · rw [implMethodRegs_eq_map]
    have hcomp :
        (fun x : MethodReg => x.luaName == sig.ident) ∘ methodRegOf ast.selfTy
          = fun s => s.ident == sig.ident := by
      funext s
      simp [Function.comp, methodRegOf_luaName]
    rw [List.filter_map, hcomp, hfil, List.map_singleton]
  all_goals intro h1 h2
  all_goals simp [methodRegOf, h1, h2]

/-- Claim C2: for every variant of an enum annotated with the enumeration
attribute, the generated `_to_mlua_variants` helper registers exactly one
static function named after the variant: a unit variant gets a zero-argument
constructor, an unnamed-fields variant a constructor over the tuple of its
field types, and a named-fields variant a constructor taking a single Lua
table and reading each declared field from it by name. -/
theorem enumeration_variant_shapes (ast : ItemEnum) (v : RsVariant)
    (hmem : v ∈ ast.variants)
    (hnd : (ast.variants.map RsVariant.ident).Nodup) :
    ∃ regs r,
      enumerationExpand (.parsed ast) =
        .emitted [.origEnum ast, .helperVariantsImpl ast.ident regs] ∧
      regs.filter (fun x => x.luaName == v.ident) = [r] ∧
      r.luaName = v.ident ∧ r.enumName = ast.ident ∧ r.variantName = v.ident ∧
      (v.fields = .unitFields → r.ctor = .unitCtor) ∧
      (∀ tys, v.fields = .unnamedFields tys → r.ctor = .tupleCtor tys) ∧
      (∀ fs, v.fields = .namedFields fs → r.ctor = .tableCtor fs) := by
  have hfil : ast.variants.filter (fun x => x.ident == v.ident) = [v] :=
    filter_nm_single RsVariant.ident ast.variants v hnd hmem
  refine ⟨ast.variants.map (variantRegOf ast.ident), variantRegOf ast.ident v,
    rfl, ?_, variantRegOf_luaName ast.ident v, ?_, ?_, ?_, ?_, ?_⟩
  · have hcomp :
        (fun x : VariantReg => x.luaName == v.ident) ∘ variantRegOf ast.ident
          = fun x => x.ident == v.ident := by
      funext x
      simp [Function.comp, variantRegOf_luaName]
    rw [List.filter_map, hcomp, hfil, List.map_singleton]
  · cases h : v.fields <;> simp [variantRegOf, h]
  · cases h : v.fields <;> simp [variantRegOf, h]
  · intro h
    simp [variantRegOf, h]
  · intro tys h
    simp [variantRegOf, h]
  · intro fs h
    simp [variantRegOf, h]

/-- Claim C3 counterexample: `compile!` with a well-formed argument list
that omits `type_path` does not propagate a parse error — the expansion
panics with the expect message "Type is required.". -/
theorem compile_missing_type_path_panics :
    compileExpand (.parsed ⟨none, none, none, none⟩) =
      .panicked "Type is required." ∧
    (compileExpand (.parsed ⟨none, none, none, none⟩)).isParseError = false :=
  ⟨rfl, rfl⟩

/-- Claim C3 (amended): every invalid input fails at expansion time with no
retry behaviour, but not always by propagating a parse error: the attribute
macros propagate syn parse failures, while `compile!` panics on any
argument parse failure (unwrap) and on an absent `type_path` (expect), a
struct field without a name makes the structure attribute panic (expect),
and a `load!` argument that parses as a non-path type makes `load!` panic
(an explicit panic call); `load!` still propagates token-level parse
failures. -/
theorem macro_failure_modes :
    (∀ msg, compileExpand (.failed msg) = .panicked msg) ∧
    (∀ f m vr, compileExpand (.parsed ⟨none, f, m, vr⟩) =
      .panicked "Type is required.") ∧
    (∀ msg, structureExpand (.failed msg) = .parseErrorEmitted msg) ∧
    (∀ s : ItemStruct, (∃ f ∈ s.fields, f.ident = none) →
      structureExpand (.parsed s) = .panicked "Field must have a name") ∧
    (∀ msg, enumerationExpand (.failed msg) = .parseErrorEmitted msg) ∧
    (∀ msg, implementationExpand (.failed msg) = .parseErrorEmitted msg) ∧
    (∀ luaVar t rest, (∀ segs, t ≠ RsType.path segs) →
      loadExpand (.identTok luaVar :: .commaTok :: .typeTok t :: rest) =
        .panicked "Expected a type path") ∧
    (loadExpand [] = .parseErrorEmitted "expected identifier") ∧
    (∀ rest, loadExpand (.commaTok :: rest) =
      .parseErrorEmitted "expected identifier") ∧
    (∀ luaVar s rest, loadExpand (.identTok luaVar :: .identTok s :: rest) =
      .parseErrorEmitted "expected comma") ∧
    (∀ luaVar t rest, loadExpand (.identTok luaVar :: .typeTok t :: rest) =
      .parseErrorEmitted "expected comma") ∧
    (∀ luaVar rest,
      loadExpand (.identTok luaVar :: .commaTok :: .commaTok :: rest) =
        .parseErrorEmitted "expected type") := by
  refine ⟨fun _ => rfl, fun _ _ _ => rfl, fun _ => rfl, ?_, fun _ => rfl,
    fun _ => rfl, ?_, rfl, fun _ => rfl, fun _ _ _ => rfl, fun _ _ _ => rfl,
    fun _ _ => rfl⟩
  · intro s hs
    simp [structureExpand, structFieldRegs_err s.fields hs]
  · intro luaVar t rest ht
    cases t with
    | path segs => exact absurd rfl (ht segs)
    | reference m inner => rfl
    | otherTy txt => rfl

/-- Claim C4: the `mlua::UserData` impl emitted by `compile!` calls
`Self::_to_mlua_fields` in `add_fields` iff `fields = true` was supplied,
and in `add_methods` calls `Self::_to_mlua_methods` iff `methods = true`
and `Self::_to_mlua_variants` iff `variants = true`; omitted flags behave
as false, so with all three absent both generated bodies are empty. -/
theorem compile_flag_wiring (args : CompileArgs) (tp : RsType)
    (htp : args.type_path = some tp) :
    ∃ fieldsBody methodsBody,
      compileExpand (.parsed args) =
        .emitted [.userDataImpl tp fieldsBody methodsBody, .fromLuaImpl tp] ∧
      (HelperCall.callFields ∈ fieldsBody ↔ args.fields = some true) ∧
      (HelperCall.callMethods ∈ methodsBody ↔ args.methods = some true) ∧
      (HelperCall.callVariants ∈ methodsBody ↔ args.variants = some true) ∧
      ((args.fields = none ∧ args.methods = none ∧ args.variants = none) →
        fieldsBody = [] ∧ methodsBody = []) := by
  obtain ⟨tp0, f0, m0, v0⟩ := args
  simp only at htp
  subst htp
  rcases f0 with _ | (_ | _) <;> rcases m0 with _ | (_ | _) <;>
    rcases v0 with _ | (_ | _) <;>
    exact ⟨_, _, rfl, by simp, by simp, by simp, by simp⟩

/-- Claim C5: every async function of an implementation block is registered
through one of mlua's asynchronous APIs (add_async_method_mut,
add_async_method, add_async_function), with a closure whose future awaits
the original Rust function on its arguments and wraps the result in Ok;
the emitted body contains nothing else (no scheduling logic of its own). -/
theorem implementation_async_forwarding (ast : ItemImpl) (sig : RsSig)
    (hmem : RsImplItem.fnItem sig ∈ ast.items)
    (hasync : sig.isAsync = true) :
    ∃ regs,
      implementationExpand (.parsed ast) =
        .emitted [.origImpl ast, .helperMethodsImpl ast.selfTy regs] ∧
      methodRegOf ast.selfTy sig ∈ regs ∧
      (methodRegOf ast.selfTy sig).luaName = sig.ident ∧
      ((methodRegOf ast.selfTy sig).api = .addAsyncMethodMut ∨
       (methodRegOf ast.selfTy sig).api = .addAsyncMethod ∨
       (methodRegOf ast.selfTy sig).api = .addAsyncFunction) ∧
      ((sig.receiver).isSome = true →
        (methodRegOf ast.selfTy sig).body =
          .awaitCallOk .thisRecv sig.ident (implArgSplit sig.inputs).1) ∧
      (sig.receiver = none →
        (methodRegOf ast.selfTy sig).body =
          .awaitCallOk (.staticRecv ast.selfTy) sig.ident
            (implArgSplit sig.inputs).1) := by
  have hsig : sig ∈ implFnSigs ast.items := by
    unfold implFnSigs
    exact List.mem_filterMap.mpr ⟨.fnItem sig, hmem, rfl⟩
  refine ⟨implMethodRegs ast.selfTy ast.items, rfl, ?_,
    methodRegOf_luaName ast.selfTy sig, ?_, ?_, ?_⟩
  · rw [implMethodRegs_eq_map]
    exact List.mem_map_of_mem (methodRegOf ast.selfTy) hsig
  · cases h : sig.receiver with
    | none => simp [methodRegOf, h, hasync]
    | some r => by_cases hm : r.isMut <;> simp [methodRegOf, h, hm, hasync]
  · intro h
    cases hr : sig.receiver with
    | none => rw [hr] at h; exact absurd h (by simp)
    | some r => by_cases hm : r.isMut <;> simp [methodRegOf, hr, hm, hasync]
  · intro h
    simp [methodRegOf, h, hasync]

/-- Claim C6: the FromLua impl emitted by `compile!` returns Ok with a
clone of the borrowed value on a userdata holding the exact Rust type,
and a FromLuaConversionError on a userdata of any other type and on every
non-userdata value; no other error is ever produced. -/
theorem compile_from_lua_conversion (args : CompileArgs) (tp : RsType)
    (htp : args.type_path = some tp)
    (selfName heldTy : String) (payload : Nat) (v : LuaValue) :
    (∃ items, compileExpand (.parsed args) = .emitted items ∧
      OutItem.fromLuaImpl tp ∈ items) ∧
    generatedFromLua selfName (.userDataV selfName payload) =
      .ok (selfName, payload) ∧
    (heldTy ≠ selfName →
      generatedFromLua selfName (.userDataV heldTy payload) =
        .error (.fromLuaConversionError "UserData" selfName
          (some "userdata is not this exact Rust type"))) ∧
    ((∀ t p, v ≠ .userDataV t p) →
      generatedFromLua selfName v =
        .error (.fromLuaConversionError v.typeName selfName
          (some "expected userdata created by mlua_magic_macros"))) ∧
    (∀ e, generatedFromLua selfName v = .error e →
      ∃ fromName msg, e = .fromLuaConversionError fromName selfName msg) := by
  refine ⟨?_, ?_, ?_, ?_, ?_⟩
  · refine ⟨[OutItem.userDataImpl tp
        (if args.fields.getD false then [HelperCall.callFields] else [])
        ((if args.methods.getD false then [HelperCall.callMethods] else [])
          ++ (if args.variants.getD false then [HelperCall.callVariants] else [])),
      OutItem.fromLuaImpl tp], ?_, ?_⟩
    · simp [compileExpand, htp]
    · simp
  · simp [generatedFromLua, borrowSelf]
  · intro h
    simp [generatedFromLua, borrowSelf, h]
  · intro h
    cases v with
    | userDataV t p => exact absurd rfl (h t p)
    | nilV => rfl
    | booleanV b => rfl
    | integerV n => rfl
    | stringV s => rfl
    | tableV id => rfl
  · intro e he
    cases v with
    | userDataV t p =>
      by_cases hb : t = selfName
      · simp [generatedFromLua, borrowSelf, hb] at he
      · simp [generatedFromLua, borrowSelf, hb] at he
        exact ⟨"UserData", some "userdata is not this exact Rust type", he.symm⟩
    | nilV =>
      simp [generatedFromLua, LuaValue.typeName] at he
      exact ⟨_, _, he.symm⟩
    | booleanV b =>
      simp [generatedFromLua, LuaValue.typeName] at he
      exact ⟨_, _, he.symm⟩
    | integerV n =>
      simp [generatedFromLua, LuaValue.typeName] at he
      exact ⟨_, _, he.symm⟩
    | stringV s =>
      simp [generatedFromLua, LuaValue.typeName] at he
      exact ⟨_, _, he.symm⟩
    | tableV id =>
      simp [generatedFromLua, LuaValue.typeName] at he
      exact ⟨_, _, he.symm⟩

/-- Claim C7: each attribute macro walks the entire declaration and emits
registrations for every declared item in declaration order, with the Lua
name equal to the Rust identifier: the structure attribute visits every
named field (the field's visibility is never inspected, so public and
private fields alike), the enumeration attribute every variant, and the
implementation attribute every fn item of the impl block. -/
theorem macros_walk_all_items (s : ItemStruct) (e : ItemEnum) (i : ItemImpl)
    (hnamed : ∀ f ∈ s.fields, f.ident.isSome) :
    (structureExpand (.parsed s) =
      .emitted [.origStruct s, .helperFieldsImpl s.ident
        ((s.fields.map (fun f =>
          [FieldReg.mk .getKind (f.ident.getD "") (f.ident.getD "") none,
           FieldReg.mk .setKind (f.ident.getD "") (f.ident.getD "")
             (some f.ty)])).flatten)]) ∧
    (∃ regs, enumerationExpand (.parsed e) =
        .emitted [.origEnum e, .helperVariantsImpl e.ident regs] ∧
      regs.map VariantReg.luaName = e.variants.map RsVariant.ident) ∧
    (∃ regs, implementationExpand (.parsed i) =
        .emitted [.origImpl i, .helperMethodsImpl i.selfTy regs] ∧
      regs.map MethodReg.luaName = (implFnSigs i.items).map RsSig.ident) := by
  refine ⟨?_, ⟨_, rfl, ?_⟩, ⟨_, rfl, ?_⟩⟩
  · simp [structureExpand, structFieldRegs_ok s.fields hnamed]
  · rw [List.map_map]
    apply List.map_congr_left
    intro v _
    exact variantRegOf_luaName e.ident v
  · rw [implMethodRegs_eq_map, List.map_map]
    apply List.map_congr_left
    intro sig _
    exact methodRegOf_luaName i.selfTy sig

/-- Claim C8: for every named field of a struct with the structure
attribute, a setter is registered via add_field_method_set under the same
field name, whose closure takes the incoming value at the field's declared
Rust type, assigns it to that field and returns Ok(()). -/
theorem structure_setter_registration (s : ItemStruct) (f : RsField)
    (nm : String) (hmem : f ∈ s.fields) (hnm : f.ident = some nm)
    (hnamed : ∀ g ∈ s.fields, g.ident.isSome) :
    ∃ regs, structureExpand (.parsed s) =
        .emitted [.origStruct s, .helperFieldsImpl s.ident regs] ∧
      FieldReg.mk .setKind nm nm (some f.ty) ∈ regs ∧
      ∀ (this : StructObj) (val : LuaValue),
        (runFieldSet nm this val).2 = .ok () ∧
        (runFieldSet nm this val).1 nm = val ∧
        ∀ g, g ≠ nm → (runFieldSet nm this val).1 g = this g := by
  refine ⟨(s.fields.map (fun f =>
      [FieldReg.mk .getKind (f.ident.getD "") (f.ident.getD "") none,
       FieldReg.mk .setKind (f.ident.getD "") (f.ident.getD "")
         (some f.ty)])).flatten, ?_, ?_, ?_⟩
  · simp [structureExpand, structFieldRegs_ok s.fields hnamed]
  · apply List.mem_flatten.mpr
    refine ⟨[FieldReg.mk .getKind nm nm none,
      FieldReg.mk .setKind nm nm (some f.ty)], ?_, ?_⟩
    · have hmap := List.mem_map_of_mem (fun f : RsField =>
        [FieldReg.mk .getKind (f.ident.getD "") (f.ident.getD "") none,
         FieldReg.mk .setKind (f.ident.getD "") (f.ident.getD "")
           (some f.ty)]) hmem
      simpa [hnm] using hmap
    · simp
  · intro this val
    refine ⟨rfl, ?_, ?_⟩
    · simp [runFieldSet]
    · intro g hg
      simp [runFieldSet, hg]

/-- Claim C9: in an implementation block, a typed argument whose pattern is
not a plain identifier is silently omitted from both the argument-name list
and the argument-type tuple of the generated closure, while arguments with
identifier patterns are kept in order; when every non-receiver argument
pattern is a plain identifier, the registration's parameter list matches
the Rust signature exactly. -/
theorem implementation_arg_filtering (selfTy : RsType) (sig : RsSig) :
    ((methodRegOf selfTy sig).argTys =
      ((typedArgsOf sig.inputs).filter hasIdentPat).map TypedArg.ty ∧
     ((typedArgsOf sig.inputs).filter hasIdentPat).map TypedArg.pat =
      (methodRegOf selfTy sig).argNames.map RsPat.identPat) ∧
    ((∀ t ∈ typedArgsOf sig.inputs, hasIdentPat t = true) →
      (methodRegOf selfTy sig).argTys =
        (typedArgsOf sig.inputs).map TypedArg.ty ∧
      (typedArgsOf sig.inputs).map TypedArg.pat =
        (methodRegOf selfTy sig).argNames.map RsPat.identPat) := by
  have hargs := methodRegOf_args selfTy sig
  have hspec := implArgSplit_spec sig.inputs
  constructor
  · constructor
    · rw [hargs.2, hspec.1]
    · rw [hargs.1]
      exact hspec.2
  · intro hall
    have hfe : (typedArgsOf sig.inputs).filter hasIdentPat
        = typedArgsOf sig.inputs :=
      List.filter_eq_self.mpr hall
    constructor
    · rw [hargs.2, hspec.1, hfe]
    · rw [hargs.1, ← hspec.2, hfe]

/-- Claim C10: every attribute macro reproduces the original item unchanged
at the start of its output and only appends one new impl block containing
the hidden helper function; the user's declaration is never modified. -/
theorem macros_preserve_original_item (s : ItemStruct) (e : ItemEnum)
    (i : ItemImpl) (hnamed : ∀ f ∈ s.fields, f.ident.isSome) :
    (∃ regs, structureExpand (.parsed s) =
      .emitted [.origStruct s, .helperFieldsImpl s.ident regs]) ∧
    (∃ regs, enumerationExpand (.parsed e) =
      .emitted [.origEnum e, .helperVariantsImpl e.ident regs]) ∧
    (∃ regs, implementationExpand (.parsed i) =
      .emitted [.origImpl i, .helperMethodsImpl i.selfTy regs]) := by
  refine ⟨⟨(s.fields.map (fun f =>
      [FieldReg.mk .getKind (f.ident.getD "") (f.ident.getD "") none,
       FieldReg.mk .setKind (f.ident.getD "") (f.ident.getD "")
         (some f.ty)])).flatten, ?_⟩, ⟨_, rfl⟩, ⟨_, rfl⟩⟩
  simp [structureExpand, structFieldRegs_ok s.fields hnamed]

/-! ### Witnesses -/

/-- Witness for the dispatch table, at the Player impl block of
tests/example.rs and its mutable method take_damage. -/
theorem implementation_dispatch_table_witness :
    (RsImplItem.fnItem takeDamageSig ∈ playerImplModel.items) ∧
    ((implFnSigs playerImplModel.items).map RsSig.ident).Nodup ∧
    (∃ regs r,
      implementationExpand (.parsed playerImplModel) =
        .emitted [.origImpl playerImplModel,
          .helperMethodsImpl playerImplModel.selfTy regs] ∧
      regs.filter (fun x => x.luaName == takeDamageSig.ident) = [r] ∧
      r.luaName = takeDamageSig.ident ∧
      (takeDamageSig.receiver = some ⟨true⟩ → takeDamageSig.isAsync = true →
        r.api = .addAsyncMethodMut) ∧
      (takeDamageSig.receiver = some ⟨true⟩ → takeDamageSig.isAsync = false →
        r.api = .addMethodMut) ∧
      (takeDamageSig.receiver = some ⟨false⟩ → takeDamageSig.isAsync = true →
        r.api = .addAsyncMethod) ∧
      (takeDamageSig.receiver = some ⟨false⟩ → takeDamageSig.isAsync = false →
        r.api = .addMethod) ∧
      (takeDamageSig.receiver = none → takeDamageSig.isAsync = true →
        r.api = .addAsyncFunction) ∧
      (takeDamageSig.receiver = none → takeDamageSig.isAsync = false →
        r.api = .addFunction)) :=
  ⟨by decide, by decide,
    implementation_dispatch_table playerImplModel takeDamageSig
      (by decide) (by decide)⟩

/-- Witness for the variant shapes, at the PlayerStatus enum and its
tuple-like variant Attacking(i32). -/
theorem enumeration_variant_shapes_witness :
    (attackingVariantModel ∈ playerStatusEnumModel.variants) ∧
    (playerStatusEnumModel.variants.map RsVariant.ident).Nodup ∧
    (∃ regs r,
      enumerationExpand (.parsed playerStatusEnumModel) =
        .emitted [.origEnum playerStatusEnumModel,
          .helperVariantsImpl playerStatusEnumModel.ident regs] ∧
      regs.filter (fun x => x.luaName == attackingVariantModel.ident) = [r] ∧
      r.luaName = attackingVariantModel.ident ∧
      r.enumName = playerStatusEnumModel.ident ∧
      r.variantName = attackingVariantModel.ident ∧
      (attackingVariantModel.fields = .unitFields → r.ctor = .unitCtor) ∧
      (∀ tys, attackingVariantModel.fields = .unnamedFields tys →
        r.ctor = .tupleCtor tys) ∧
      (∀ fs, attackingVariantModel.fields = .namedFields fs →
        r.ctor = .tableCtor fs)) :=
  ⟨by decide, by decide,
    enumeration_variant_shapes playerStatusEnumModel attackingVariantModel
      (by decide) (by decide)⟩

/-- Witness for the amended failure-mode claim: a tuple struct makes the
structure attribute panic, a reference-type argument makes load panic, and
a load argument list with a missing comma propagates a parse error. -/
theorem macro_failure_modes_witness :
    structureExpand (.parsed tupleStructModel) =
      .panicked "Field must have a name" ∧
    loadExpand [.identTok "lua", .commaTok,
        .typeTok (.reference false (.path ["Player"]))] =
      .panicked "Expected a type path" ∧
    loadExpand [.identTok "lua", .identTok "Player"] =
      .parseErrorEmitted "expected comma" :=
  ⟨macro_failure_modes.2.2.2.1 tupleStructModel (by decide),
   macro_failure_modes.2.2.2.2.2.2.1 "lua"
     (.reference false (.path ["Player"])) [] (fun _ h => RsType.noConfusion h),
   macro_failure_modes.2.2.2.2.2.2.2.2.2.1 "lua" "Player" []⟩

/-- Witness for the flag wiring, at the Player compile arguments of
tests/example.rs. -/
theorem compile_flag_wiring_witness :
    playerCompileArgs.type_path = some (.path ["Player"]) ∧
    (∃ fieldsBody methodsBody,
      compileExpand (.parsed playerCompileArgs) =
        .emitted [.userDataImpl (.path ["Player"]) fieldsBody methodsBody,
          .fromLuaImpl (.path ["Player"])] ∧
      (HelperCall.callFields ∈ fieldsBody ↔ playerCompileArgs.fields = some true) ∧
      (HelperCall.callMethods ∈ methodsBody ↔
        playerCompileArgs.methods = some true) ∧
      (HelperCall.callVariants ∈ methodsBody ↔
        playerCompileArgs.variants = some true) ∧
      ((playerCompileArgs.fields = none ∧ playerCompileArgs.methods = none ∧
          playerCompileArgs.variants = none) →
        fieldsBody = [] ∧ methodsBody = [])) :=
  ⟨by decide,
    compile_flag_wiring playerCompileArgs (.path ["Player"]) (by decide)⟩

/-- Witness for async forwarding, at the Db impl block of tests/example.rs
and its async mutable method write_async. -/
theorem implementation_async_forwarding_witness :
    (RsImplItem.fnItem writeAsyncSig ∈ dbImplModel.items) ∧
    writeAsyncSig.isAsync = true ∧
    (∃ regs,
      implementationExpand (.parsed dbImplModel) =
        .emitted [.origImpl dbImplModel,
          .helperMethodsImpl dbImplModel.selfTy regs] ∧
      methodRegOf dbImplModel.selfTy writeAsyncSig ∈ regs ∧
      (methodRegOf dbImplModel.selfTy writeAsyncSig).luaName =
        writeAsyncSig.ident ∧
      ((methodRegOf dbImplModel.selfTy writeAsyncSig).api = .addAsyncMethodMut ∨
       (methodRegOf dbImplModel.selfTy writeAsyncSig).api = .addAsyncMethod ∨
       (methodRegOf dbImplModel.selfTy writeAsyncSig).api = .addAsyncFunction) ∧
      ((writeAsyncSig.receiver).isSome = true →
        (methodRegOf dbImplModel.selfTy writeAsyncSig).body =
          .awaitCallOk .thisRecv writeAsyncSig.ident
            (implArgSplit writeAsyncSig.inputs).1) ∧
      (writeAsyncSig.receiver = none →
        (methodRegOf dbImplModel.selfTy writeAsyncSig).body =
          .awaitCallOk (.staticRecv dbImplModel.selfTy) writeAsyncSig.ident
            (implArgSplit writeAsyncSig.inputs).1)) :=
  ⟨by decide, rfl,
    implementation_async_forwarding dbImplModel writeAsyncSig (by decide) rfl⟩

/-- Witness for the FromLua conversion, on a Player userdata, an Enemy
userdata and a nil value. -/
theorem compile_from_lua_conversion_witness :
    playerCompileArgs.type_path = some (.path ["Player"]) ∧
    ((∃ items, compileExpand (.parsed playerCompileArgs) = .emitted items ∧
        OutItem.fromLuaImpl (.path ["Player"]) ∈ items) ∧
      generatedFromLua "Player" (.userDataV "Player" 7) = .ok ("Player", 7) ∧
      ("Enemy" ≠ "Player" →
        generatedFromLua "Player" (.userDataV "Enemy" 7) =
          .error (.fromLuaConversionError "UserData" "Player"
            (some "userdata is not this exact Rust type"))) ∧
      ((∀ t p, LuaValue.nilV ≠ LuaValue.userDataV t p) →
        generatedFromLua "Player" .nilV =
          .error (.fromLuaConversionError LuaValue.nilV.typeName "Player"
            (some "expected userdata created by mlua_magic_macros"))) ∧
      (∀ e, generatedFromLua "Player" .nilV = .error e →
        ∃ fromName msg, e = .fromLuaConversionError fromName "Player" msg)) :=
  ⟨by decide,
    compile_from_lua_conversion playerCompileArgs (.path ["Player"])
      (by decide) "Player" "Enemy" 7 .nilV⟩

/-- Witness for the full-walk claim, at the Player struct, the PlayerStatus
enum and the Player impl block of tests/example.rs. -/
theorem macros_walk_all_items_witness :
    (∀ f ∈ playerStructModel.fields, f.ident.isSome) ∧
    ((structureExpand (.parsed playerStructModel) =
      .emitted [.origStruct playerStructModel,
        .helperFieldsImpl playerStructModel.ident
          ((playerStructModel.fields.map (fun f =>
            [FieldReg.mk .getKind (f.ident.getD "") (f.ident.getD "") none,
             FieldReg.mk .setKind (f.ident.getD "") (f.ident.getD "")
               (some f.ty)])).flatten)]) ∧
    (∃ regs, enumerationExpand (.parsed playerStatusEnumModel) =
        .emitted [.origEnum playerStatusEnumModel,
          .helperVariantsImpl playerStatusEnumModel.ident regs] ∧
      regs.map VariantReg.luaName =
        playerStatusEnumModel.variants.map RsVariant.ident) ∧
    (∃ regs, implementationExpand (.parsed playerImplModel) =
        .emitted [.origImpl playerImplModel,
          .helperMethodsImpl playerImplModel.selfTy regs] ∧
      regs.map MethodReg.luaName =
        (implFnSigs playerImplModel.items).map RsSig.ident)) :=
  ⟨by decide,
    macros_walk_all_items playerStructModel playerStatusEnumModel
      playerImplModel (by decide)⟩

/-- Witness for the setter claim, at the hp field of the Player struct. -/
theorem structure_setter_registration_witness :
    (hpFieldModel ∈ playerStructModel.fields) ∧
    (hpFieldModel.ident = some "hp") ∧
    (∀ g ∈ playerStructModel.fields, g.ident.isSome) ∧
    (∃ regs, structureExpand (.parsed playerStructModel) =
        .emitted [.origStruct playerStructModel,
          .helperFieldsImpl playerStructModel.ident regs] ∧
      FieldReg.mk .setKind "hp" "hp" (some hpFieldModel.ty) ∈ regs ∧
      ∀ (this : StructObj) (val : LuaValue),
        (runFieldSet "hp" this val).2 = .ok () ∧
        (runFieldSet "hp" this val).1 "hp" = val ∧
        ∀ g, g ≠ "hp" → (runFieldSet "hp" this val).1 g = this g) :=
  ⟨by decide, by decide, by decide,
    structure_setter_registration playerStructModel hpFieldModel "hp"
      (by decide) (by decide) (by decide)⟩

/-- Witness for the argument-filtering claim, at a signature with a
wildcard-pattern argument. -/
theorem implementation_arg_filtering_witness :
    ((methodRegOf (.path ["Player"]) mixedArgsSig).argTys =
      ((typedArgsOf mixedArgsSig.inputs).filter hasIdentPat).map TypedArg.ty ∧
     ((typedArgsOf mixedArgsSig.inputs).filter hasIdentPat).map TypedArg.pat =
      (methodRegOf (.path ["Player"]) mixedArgsSig).argNames.map
        RsPat.identPat) ∧
    ((∀ t ∈ typedArgsOf mixedArgsSig.inputs, hasIdentPat t = true) →
      (methodRegOf (.path ["Player"]) mixedArgsSig).argTys =
        (typedArgsOf mixedArgsSig.inputs).map TypedArg.ty ∧
      (typedArgsOf mixedArgsSig.inputs).map TypedArg.pat =
        (methodRegOf (.path ["Player"]) mixedArgsSig).argNames.map
          RsPat.identPat) :=
  implementation_arg_filtering (.path ["Player"]) mixedArgsSig

/-- Witness for the original-item preservation claim, at the models of
tests/example.rs. -/
theorem macros_preserve_original_item_witness :
    (∀ f ∈ playerStructModel.fields, f.ident.isSome) ∧
    ((∃ regs, structureExpand (.parsed playerStructModel) =
      .emitted [.origStruct playerStructModel,
        .helperFieldsImpl playerStructModel.ident regs]) ∧
    (∃ regs, enumerationExpand (.parsed playerStatusEnumModel) =
      .emitted [.origEnum playerStatusEnumModel,
        .helperVariantsImpl playerStatusEnumModel.ident regs]) ∧
    (∃ regs, implementationExpand (.parsed dbImplModel) =
      .emitted [.origImpl dbImplModel,
        .helperMethodsImpl dbImplModel.selfTy regs])) :=
  ⟨by decide,
    macros_preserve_original_item playerStructModel playerStatusEnumModel
      dbImplModel (by decide)⟩
